import Mathlib

set_option maxHeartbeats 1000000

/-!
Verification development for the xspect-build/packages repository.

The repository repackages prebuilt binaries (patchelf, a standalone Python
distribution) as npm packages.  The development below gives a shallow
embedding of the artifact-resolution code:

* the runtime Python fetcher (`getPlatformPackageName`, `download`,
  `extract`, `getPythonPath`, `fixPermissions`) from the
  `@xspect-build/python` package,
* the patchelf path resolver (`findBinaryPath`, `getPatchelfPath`,
  `isPatchelfAvailable`) from the `@xspect-build/patchelf` package,
* the `replaceSymlinks` pass of the build-time Python packager
  (`scripts/build-python.js`).

The filesystem is modelled as a flat association list from absolute paths
(lists of name components) to objects (regular file with content and mode,
directory, or symbolic link).  Network transport (`npm pack`) is modelled
by an abstract registry function together with a state recording the
contents of the shared OS temporary directory and a counter of transport
calls.  Failure injection parameters (`failAt` for an interrupted unpack,
`chmodFails` for chmod errors) model the failure scenarios named in the
specification; with `failAt = none` and `chmodFails = fun _ => false` the
definitions follow the success path of the source exactly.
-/

namespace Xspect

/-- Absolute filesystem path, as a list of name components. -/
abbrev Path := List String

/-- Filesystem object: regular file (content bytes and permission mode),
directory, or symbolic link (raw link target text). -/
inductive FsObj where
  | file (content : List Nat) (mode : Nat)
  | dir
  | symlink (target : String)
  deriving DecidableEq

/-- Flat filesystem: association list from paths to objects. -/
abbrev Fs := List (Path × FsObj)

/-- Look up the object stored at a path (first match). -/
def lookupFs : Fs → Path → Option FsObj
  | [], _ => none
  | e :: rest, p => if e.1 = p then some e.2 else lookupFs rest p

/-- Remove every entry stored at a path (models `fs.unlinkSync` / overwrite). -/
def eraseFs : Fs → Path → Fs
  | [], _ => []
  | e :: rest, p => if e.1 = p then eraseFs rest p else e :: eraseFs rest p

/-- Write an object at a path, replacing any previous entry. -/
def writeObj (fs : Fs) (p : Path) (o : FsObj) : Fs :=
  eraseFs fs p ++ [(p, o)]

/-- Change the mode of the regular file stored at a path, in place. -/
def setMode (fs : Fs) (p : Path) (m : Nat) : Fs :=
  fs.map fun e =>
    if e.1 = p then
      match e.2 with
      | FsObj.file c _ => (p, FsObj.file c m)
      | o => (p, o)
    else e

/-- If `q` is an immediate child of `p`, its final name component. -/
def childName (p q : Path) : Option String :=
  if q.length = p.length + 1 ∧ q.take p.length = p then q.getLast? else none

/-- Names of the immediate children of directory `p`, in store order
(models `fs.readdirSync`). -/
def readdirNames (fs : Fs) (p : Path) : List String :=
  fs.filterMap fun e => childName p e.1

/-- Create the directory and all its ancestors if absent
(models `fs.mkdirSync(p, recursive: true)`). -/
def mkdirp (fs : Fs) (p : Path) : Fs :=
  fs ++ (List.range (p.length + 1)).filterMap fun i =>
    if lookupFs fs (p.take i) = none then some (p.take i, FsObj.dir) else none

/-- Errors raised by the scripts (JavaScript throws `Error` with a message;
only the failure category matters here). -/
inductive Err where
  | versionRequired
  | unsupportedPlatform
  | transportFailure
  | packageNotFound
  | corruptArchive
  | notFound
  deriving DecidableEq

/-! The runtime Python fetcher (`@xspect-build/python`).

Source: the `index.js` of the python package (`getPlatformPackageName`,
`download`, `extract`, `getPythonPath`, `fixPermissions`). -/

/-- Association-list lookup for the platform tables
(`platformPackageMap[platformKey] || null`). -/
def lookupStr : List (String × String) → String → Option String
  | [], _ => none
  | e :: rest, q => if e.1 = q then some e.2 else lookupStr rest q

/-- The supported platform table of the python package. -/
def pyPlatformMap : List (String × String) :=
  [("linux-arm64", "@xspect-build/python-linux-arm64"),
   ("linux-x64", "@xspect-build/python-linux-x64")]

/-- Source `getPlatformPackageName`: map the current `platform`-`arch` key
through the table, `null` (here `none`) when absent. -/
def getPlatformPackageName (platform arch : String) : Option String :=
  lookupStr pyPlatformMap (platform ++ "-" ++ arch)

/-- One entry of a tar archive: path relative to the unpack destination,
and the object to create there. -/
abbrev TarEntry := Path × FsObj

/-- Result of a successful `npm pack`: the tarball filename it produces in
the working directory, and the decompressed archive (`none` models a
corrupt gzip stream, on which `gunzipSync` throws). -/
structure PackResult where
  fname : String
  content : Option (List TarEntry)
  deriving DecidableEq

/-- Abstract npm registry: package name and version tag to the result of
`npm pack`, `none` when the pack command itself fails. -/
abbrev Registry := String → String → Option PackResult

/-- State of the shared OS temporary directory (`os.tmpdir()`) plus a
counter of network transport calls (`npm pack` invocations). -/
structure DLState where
  tmp : List (String × Option (List TarEntry))
  calls : Nat
  deriving DecidableEq

/-- Write a file into the temporary directory, overwriting an existing
file of the same name in place. -/
def writeTmpFile (l : List (String × Option (List TarEntry))) (n : String)
    (c : Option (List TarEntry)) : List (String × Option (List TarEntry)) :=
  if (l.find? fun e => e.1 = n).isSome then
    l.map fun e => if e.1 = n then (n, c) else e
  else l ++ [(n, c)]

/-- Remove the first file of the given name from the temporary directory
(models `fs.rmSync(tgzFile)`). -/
def rmTmpFile : List (String × Option (List TarEntry)) → String →
    List (String × Option (List TarEntry))
  | [], _ => []
  | e :: rest, n => if e.1 = n then rest else e :: rmTmpFile rest n

/-- Source predicate selecting the downloaded tarball:
`f.startsWith(xspect-build-python-) && f.endsWith(.tgz)`. -/
def tgzMatch (n : String) : Bool :=
  "xspect-build-python-".data.isPrefixOf n.data && ".tgz".data.isSuffixOf n.data

/-- Source `os.tmpdir()`: a process-wide constant; in particular it does
not depend on which version is being downloaded. -/
def osTmpdir : String := "/tmp"

/-- The working directory `download` packs into (`const cwd = os.tmpdir()`,
the same shared directory on every invocation). -/
def downloadCwd (_version : String) : String := osTmpdir

/-- Source `download(version)`: require a version, require a supported
platform, run `npm pack` in the shared temporary directory, scan that
directory for the first `xspect-build-python-*.tgz` file, gunzip it, remove
it, and return the archive.  Returns the post-call state together with the
outcome. -/
def download (reg : Registry) (platform arch version : String)
    (st : DLState) : DLState × Except Err (List TarEntry) :=
  if version = "" then (st, Except.error Err.versionRequired)
  else
    match getPlatformPackageName platform arch with
    | none => (st, Except.error Err.unsupportedPlatform)
    | some pkg =>
      match reg pkg version with
      | none => (⟨st.tmp, st.calls + 1⟩, Except.error Err.transportFailure)
      | some pr =>
        let tmp1 := writeTmpFile st.tmp pr.fname pr.content
        match tmp1.find? fun e => tgzMatch e.1 with
        | none => (⟨tmp1, st.calls + 1⟩, Except.error Err.packageNotFound)
        | some found =>
          match found.2 with
          | none => (⟨tmp1, st.calls + 1⟩, Except.error Err.corruptArchive)
          | some entries =>
            (⟨rmTmpFile tmp1 found.1, st.calls + 1⟩, Except.ok entries)

/-- Unpack archive entries below a destination directory
(models `archive.unpack(destPath)`; entry paths keep their internal
`package/` prefix, as `npm pack` tarballs root everything at `package/`). -/
def unpackAll (fs : Fs) (dest : Path) (entries : List TarEntry) : Fs :=
  entries.foldl (fun acc e => writeObj acc (dest ++ e.1) e.2) fs

/-- Source `fixPermissions` recursion over one directory listing.  `fuel`
bounds the total number of entries the walk may touch (the source
recursion needs no such bound because the real tree is finite; every
theorem below supplies fuel exceeding the walk, so the bound is never
hit); `chmodFails p = true` models `fs.chmodSync` throwing at `p`, which
the source swallows. -/
def fixGo : Nat → (Path → Bool) → Fs → Path → List String → Fs
  | 0, _, fs, _, _ => fs
  | fuel + 1, cf, fs, dirP, names =>
    match names with
    | [] => fs
    | n :: ns =>
      let full := dirP ++ [n]
      let fs1 :=
        match lookupFs fs full with
        | some FsObj.dir => fixGo fuel cf fs full (readdirNames fs full)
        | some (FsObj.file _ _) =>
          if cf full then fs else setMode fs full 0o755
        | _ => fs
      fixGo fuel cf fs1 dirP ns

/-- Source `fixPermissions(dir)`: return if the directory does not exist,
otherwise chmod every regular file in the subtree to `0o755`, swallowing
chmod errors. -/
def fixPermissions (fuel : Nat) (chmodFails : Path → Bool) (fs : Fs)
    (dirP : Path) : Fs :=
  if lookupFs fs dirP = none then fs
  else fixGo fuel chmodFails fs dirP (readdirNames fs dirP)

/-- Fuel that dominates the total work of any directory walk over the
store. -/
def bigFuel (fs : Fs) : Nat :=
  (fs.length + 1) * (fs.length + 1) + 1

/-- Source `CACHE_DIR = path.join(os.homedir(), .xspect-build, python)`. -/
def CACHE_DIR : Path := ["~", ".xspect-build", "python"]

/-- The completion-marker path `extract` checks:
`path.join(destPath, package.json)`. -/
def markerPath (destPath : Path) : Path := destPath ++ ["package.json"]

/-- The path `extract` returns: `path.join(destPath, package, python)`. -/
def pythonDirOf (destPath : Path) : Path := destPath ++ ["package", "python"]

/-- Source `extract(dest, options)`: require a version; default the
destination to `CACHE_DIR/version`; if the marker file exists return the
python directory immediately; otherwise download, create the destination,
unpack into it, fix permissions under `package/python/bin`, and return the
python directory.  `failAt = some k` injects a failure after `k` entries of
the unpack (the interrupted-materialization scenario of the spec);
`failAt = none` is the unmodified success path. -/
def extract (reg : Registry) (platform arch : String) (failAt : Option Nat)
    (chmodFails : Path → Bool) (dest : Option Path) (version : String)
    (fs : Fs) (st : DLState) : Fs × DLState × Except Err Path :=
  if version = "" then (fs, st, Except.error Err.versionRequired)
  else
    let destPath := dest.getD (CACHE_DIR ++ [version])
    let pythonDir := pythonDirOf destPath
    if (lookupFs fs (markerPath destPath)).isSome then
      (fs, st, Except.ok pythonDir)
    else
      match download reg platform arch version st with
      | (st1, Except.error e) => (fs, st1, Except.error e)
      | (st1, Except.ok entries) =>
        let fs1 := mkdirp fs destPath
        match failAt with
        | some k =>
          (unpackAll fs1 destPath (entries.take k), st1,
            Except.error Err.corruptArchive)
        | none =>
          let fs2 := unpackAll fs1 destPath entries
          let fs3 := fixPermissions (bigFuel fs2) chmodFails fs2
            (pythonDir ++ ["bin"])
          (fs3, st1, Except.ok pythonDir)

/-- Source `getPythonPath(options)`: require a version, delegate to
`extract`. -/
def getPythonPath (reg : Registry) (platform arch : String)
    (failAt : Option Nat) (chmodFails : Path → Bool) (dest : Option Path)
    (version : String) (fs : Fs) (st : DLState) :
    Fs × DLState × Except Err Path :=
  if version = "" then (fs, st, Except.error Err.versionRequired)
  else extract reg platform arch failAt chmodFails dest version fs st

/-! The patchelf path resolver (`@xspect-build/patchelf`, `lib/index.js`):
`findBinaryPath`, `getPatchelfPath`, `isPatchelfAvailable`.

Paths on this side stay raw strings, since `path.join` does not normalize
`..` components; the host filesystem is abstracted to the sets of paths
that exist as regular files, exist as directories, and pass the
`fs.accessSync(p, X_OK)` check, plus the result of
`require.resolve(pkg/package.json)`. -/

/-- Host state seen by the patchelf resolver.  `resolvedDir` is the
directory of the `package.json` that `require.resolve` finds (`none` when
module resolution throws). -/
structure Host where
  platform : String
  arch : String
  fsFiles : List String
  fsDirs : List String
  execOk : List String
  resolvedDir : Option String
  deriving DecidableEq

/-- Join path segments with a separator, without any normalization
(models `path.join`). -/
def pjoin : List String → String
  | [] => ""
  | [x] => x
  | x :: xs => x ++ "/" ++ pjoin xs

/-- The supported platform table of the patchelf package. -/
def patchelfPlatformMap : List (String × String) :=
  [("darwin-arm64", "@xspect-build/patchelf-darwin-arm64"),
   ("darwin-x64", "@xspect-build/patchelf-darwin-x64"),
   ("linux-arm64", "@xspect-build/patchelf-linux-arm64"),
   ("linux-arm", "@xspect-build/patchelf-linux-arm"),
   ("linux-x64", "@xspect-build/patchelf-linux-x64")]

/-- First probe: `path.join(dirname, .., node_modules, pkg, bin, patchelf)`. -/
def candidateDirect (dn pkg : String) : String :=
  pjoin [dn, "..", "node_modules", pkg, "bin", "patchelf"]

/-- Second probe: `path.join(dirname, .., .., pkg, bin, patchelf)`. -/
def candidateHoisted (dn pkg : String) : String :=
  pjoin [dn, "..", "..", pkg, "bin", "patchelf"]

/-- Third probe: `path.join(dirname, .., .., .pnpm, node_modules, pkg, bin, patchelf)`. -/
def candidatePnpm (dn pkg : String) : String :=
  pjoin [dn, "..", "..", ".pnpm", "node_modules", pkg, "bin", "patchelf"]

/-- Source `possiblePaths` array, in probe order. -/
def possiblePaths (dn pkg : String) : List String :=
  [candidateDirect dn pkg, candidateHoisted dn pkg, candidatePnpm dn pkg]

/-- Source `fs.existsSync`: true whether the path is a regular file or a
directory (existence only, no file-type check). -/
def existsSyncB (h : Host) (p : String) : Bool :=
  h.fsFiles.contains p || h.fsDirs.contains p

/-- Source `fs.accessSync(p, X_OK)` as a boolean check. -/
def accessXOk (h : Host) (p : String) : Bool :=
  h.execOk.contains p

/-- Source `findBinaryPath`: look up the platform package, probe the
candidate paths with `existsSync`, then fall back to resolving the package
and probing `bin/patchelf` next to its `package.json`; `null` when nothing
is found. -/
def findBinaryPath (h : Host) (dn : String) : Option String :=
  match lookupStr patchelfPlatformMap (h.platform ++ "-" ++ h.arch) with
  | none => none
  | some pkg =>
    match (possiblePaths dn pkg).find? fun p => existsSyncB h p with
    | some p => some p
    | none =>
      match h.resolvedDir with
      | some d =>
        let bp := pjoin [d, "bin", "patchelf"]
        if existsSyncB h bp then some bp else none
      | none => none

/-- Modelled from the spec: `resolveBinary` as section 4.5 words it, a
second definition used only to compare against the source
`findBinaryPath` — probe the ordered candidate locations (including the
resolved install layout) and return the first path that exists AND is a
regular file. -/
def findBinaryPathSpec (h : Host) (dn : String) : Option String :=
  match lookupStr patchelfPlatformMap (h.platform ++ "-" ++ h.arch) with
  | none => none
  | some pkg =>
    let cands := possiblePaths dn pkg ++
      (match h.resolvedDir with
       | some d => [pjoin [d, "bin", "patchelf"]]
       | none => [])
    cands.find? fun p => h.fsFiles.contains p

/-- Source `getPatchelfPath`: throw a not-found error when `findBinaryPath`
returns `null`, otherwise return the path. -/
def getPatchelfPath (h : Host) (dn : String) : Except Err String :=
  match findBinaryPath h dn with
  | none => Except.error Err.notFound
  | some p => Except.ok p

/-- Source `isPatchelfAvailable`: try `getPatchelfPath` then
`accessSync(p, X_OK)`, returning `true` on success and `false` on any
thrown error (the catch-all `catch` clause, written out as a match on the
tried computation). -/
def isPatchelfAvailable (h : Host) (dn : String) : Except Err Bool :=
  match
    (match getPatchelfPath h dn with
     | Except.error e => Except.error e
     | Except.ok p =>
       if accessXOk h p then Except.ok true
       else Except.error Err.notFound : Except Err Bool)
  with
  | Except.ok b => Except.ok b
  | Except.error _ => Except.ok false

/-! The build-time symlink materializer (`scripts/build-python.js`,
`replaceSymlinks`). -/

/-- Normalize one component while resolving a path, as `path.resolve`
does: empty and `.` components are dropped, `..` pops the last component,
anything else is appended. -/
def normStep (acc : Path) (c : String) : Path :=
  if c = "" ∨ c = "." then acc
  else if c = ".." then acc.dropLast
  else acc ++ [c]

/-- Source `path.resolve(dir, target)`: split the link target on `/`; an
absolute target replaces the base, a relative one is resolved against the
containing directory. -/
def resolvePath (dirP : Path) (t : String) : Path :=
  let comps := (t.data.splitOn '/').map fun cs => String.mk cs
  if t.data.head? = some '/' then comps.foldl normStep []
  else comps.foldl normStep dirP

/-- Source `fs.statSync` (and `fs.existsSync`) following symbolic links,
with a chain-length bound as the kernel imposes (`ELOOP`). -/
def statFollow (fs : Fs) : Nat → Path → Option FsObj
  | 0, _ => none
  | fuel + 1, p =>
    match lookupFs fs p with
    | some (FsObj.symlink t) => statFollow fs fuel (resolvePath p.dropLast t)
    | o => o

/-- Source `fs.cpSync(src, dst, recursive: true)`: copy the subtree rooted
at `src` to `dst` (inner symbolic links are copied verbatim, since `cpSync`
does not dereference by default). -/
def cpTree (fs : Fs) (src dst : Path) : Fs :=
  fs ++ (fs.filter fun e => e.1.take src.length = src).map
    fun e => (dst ++ e.1.drop src.length, e.2)

/-- Source symlink-replacement step of `replaceSymlinks`: read the link,
resolve its target against the containing directory, unlink it, and if the
target exists copy it back in its place — `copyFileSync` plus `chmodSync`
to the mode of the target for a regular file, recursive `cpSync` for a
directory. -/
def replaceLink (fs : Fs) (dirP full : Path) (t : String) : Fs :=
  let q := resolvePath dirP t
  let fs1 := eraseFs fs full
  match statFollow fs1 40 q with
  | some (FsObj.file c m) => fs1 ++ [(full, FsObj.file c m)]
  | some FsObj.dir => cpTree fs1 q full
  | _ => fs1

/-- Source `replaceSymlinks` recursion over one directory listing: for a
symbolic-link entry run the replacement step, for a directory entry recurse,
otherwise leave the entry alone.  `fuel` bounds the total number of entries
the walk may touch (see `fixGo`). -/
def rsGo : Nat → Fs → Path → List String → Fs
  | 0, fs, _, _ => fs
  | fuel + 1, fs, dirP, names =>
    match names with
    | [] => fs
    | n :: ns =>
      let full := dirP ++ [n]
      let fs1 :=
        match lookupFs fs full with
        | some (FsObj.symlink t) => replaceLink fs dirP full t
        | some FsObj.dir => rsGo fuel fs full (readdirNames fs full)
        | _ => fs
      rsGo fuel fs1 dirP ns

/-- Source `replaceSymlinks(dir)`: walk the listing of `dir` (the source
recursion terminates because the tree is finite and the walk never
recurses into directories it created; every theorem below supplies fuel
exceeding the walk). -/
def replaceSymlinks (fuel : Nat) (fs : Fs) (dirP : Path) : Fs :=
  rsGo fuel fs dirP (readdirNames fs dirP)

/-! Concrete instances used to evaluate the model at specific inputs. -/

/-- Equality on `Except` is decidable componentwise. -/
instance {ε α : Type} [DecidableEq ε] [DecidableEq α] :
    DecidableEq (Except ε α) := fun x y =>
  match x, y with
  | Except.ok a, Except.ok b =>
    if h : a = b then isTrue (by rw [h]) else isFalse (by simp [h])
  | Except.error a, Except.error b =>
    if h : a = b then isTrue (by rw [h]) else isFalse (by simp [h])
  | Except.ok _, Except.error _ => isFalse (by simp)
  | Except.error _, Except.ok _ => isFalse (by simp)

/-- A representative npm tarball of the python platform package: all
entries live under the `package/` root, as `npm pack` produces. -/
def demoArchive : List TarEntry :=
  [(["package"], FsObj.dir),
   (["package", "package.json"], FsObj.file [1] 0o644),
   (["package", "python"], FsObj.dir),
   (["package", "python", "bin"], FsObj.dir),
   (["package", "python", "bin", "python3"], FsObj.file [2] 0o644)]

/-- A registry that always serves `demoArchive` under the usual tarball
filename. -/
def demoReg : Registry := fun _ _ =>
  some ⟨"xspect-build-python-linux-x64-3.9.13-install-only.1.tgz",
        some demoArchive⟩

/-- A registry on which `npm pack` always fails. -/
def demoRegFail : Registry := fun _ _ => none

/-- A registry serving a tarball whose gzip stream is corrupt. -/
def corruptReg : Registry := fun _ _ =>
  some ⟨"xspect-build-python-linux-x64-9.9.9.tgz", none⟩

/-- Archive of a stale tarball left behind in the temporary directory. -/
def leftoverArch : List TarEntry :=
  [(["package"], FsObj.dir), (["package", "old"], FsObj.file [9] 0o644)]

/-- Temporary-directory state holding the stale tarball. -/
def leftoverState : DLState :=
  ⟨[("xspect-build-python-linux-x64-1.0.0.tgz", some leftoverArch)], 0⟩

/-- A registry serving version 2.0.0 with `demoArchive` as content. -/
def regNewVersion : Registry := fun _ _ =>
  some ⟨"xspect-build-python-linux-x64-2.0.0.tgz", some demoArchive⟩

/-- A tarball whose payload carries a `libexec` directory with a
non-executable regular file, beside the usual `bin`. -/
def libexecArchive : List TarEntry :=
  [(["package"], FsObj.dir),
   (["package", "python"], FsObj.dir),
   (["package", "python", "bin"], FsObj.dir),
   (["package", "python", "bin", "python3"], FsObj.file [2] 0o644),
   (["package", "python", "libexec"], FsObj.dir),
   (["package", "python", "libexec", "ld"], FsObj.file [3] 0o600)]

/-- A registry serving `libexecArchive`. -/
def regLibexec : Registry := fun _ _ =>
  some ⟨"xspect-build-python-linux-x64-1.2.3.tgz", some libexecArchive⟩

/-- Archive with the fixed npm layout above an arbitrary flat list of
`bin` files (name, content, mode). -/
def archOf (L : List (String × List Nat × Nat)) : List TarEntry :=
  [(["package"], FsObj.dir),
   (["package", "python"], FsObj.dir),
   (["package", "python", "bin"], FsObj.dir)] ++
  L.map fun e => (["package", "python", "bin", e.1], FsObj.file e.2.1 e.2.2)

/-- A one-file `bin` payload. -/
def demoBinL : List (String × List Nat × Nat) := [("python3", [2], 0o644)]

/-- A registry serving `archOf demoBinL`. -/
def regBin : Registry := fun _ _ =>
  some ⟨"xspect-build-python-linux-x64-1.0.0.tgz", some (archOf demoBinL)⟩

/-- The patchelf platform package expected on a linux-x64 host. -/
def demoPkg : String := "@xspect-build/patchelf-linux-x64"

/-- A linux-x64 host on which the first probed candidate exists but is a
directory, while the second probed candidate is a regular file. -/
def hostDirCand : Host :=
  { platform := "linux", arch := "x64",
    fsFiles := [candidateHoisted "/app/lib" demoPkg],
    fsDirs := [candidateDirect "/app/lib" demoPkg],
    execOk := [], resolvedDir := none }

/-- A linux-x64 host with no platform package installed at all. -/
def hostEmpty : Host :=
  { platform := "linux", arch := "x64", fsFiles := [], fsDirs := [],
    execOk := [], resolvedDir := none }

/-! Basic lemmas about the flat filesystem store. -/

theorem lookupFs_nil (p : Path) : lookupFs [] p = none := rfl

theorem lookupFs_cons (e : Path × FsObj) (rest : Fs) (p : Path) :
    lookupFs (e :: rest) p = if e.1 = p then some e.2 else lookupFs rest p :=
  rfl

theorem lookupFs_eq_none_iff {fs : Fs} {p : Path} :
    lookupFs fs p = none ↔ ∀ e ∈ fs, e.1 ≠ p := by
  induction fs with
  | nil => exact ⟨fun _ e he => absurd he (List.not_mem_nil e), fun _ => rfl⟩
  | cons e rest ih =>
    rw [lookupFs_cons]
    by_cases h : e.1 = p
    · rw [if_pos h]
      constructor
      · intro hc
        exact absurd hc (Option.some_ne_none _)
      · intro hall
        exact absurd h (hall e (List.mem_cons_self e rest))
    · rw [if_neg h, ih]
      constructor
      · intro hall x hx
        rcases List.mem_cons.mp hx with rfl | hx
        · exact h
        · exact hall x hx
      · intro hall x hx
        exact hall x (List.mem_cons_of_mem e hx)

theorem lookupFs_append (l1 l2 : Fs) (p : Path) :
    lookupFs (l1 ++ l2) p = (lookupFs l1 p).or (lookupFs l2 p) := by
  induction l1 with
  | nil => simp [lookupFs]
  | cons e rest ih =>
    by_cases h : e.1 = p
    · simp [lookupFs_cons, h]
    · simp only [List.cons_append, lookupFs_cons, if_neg h, ih]

theorem lookupFs_eraseFs (fs : Fs) (p q : Path) :
    lookupFs (eraseFs fs p) q = if q = p then none else lookupFs fs q := by
  induction fs with
  | nil => simp [eraseFs, lookupFs]
  | cons e rest ih =>
    by_cases hep : e.1 = p
    · by_cases hqp : q = p
      · rw [show eraseFs (e :: rest) p = eraseFs rest p by
          simp [eraseFs, hep], ih, if_pos hqp, if_pos hqp]
      · rw [show eraseFs (e :: rest) p = eraseFs rest p by
          simp [eraseFs, hep], ih, if_neg hqp, if_neg hqp, lookupFs_cons,
          if_neg (fun he => hqp (hep ▸ he.symm))]
    · rw [show eraseFs (e :: rest) p = e :: eraseFs rest p by
        simp [eraseFs, hep], lookupFs_cons, lookupFs_cons]
      by_cases heq : e.1 = q
      · have hqp : ¬q = p := fun hc => hep (heq.trans hc)
        rw [if_pos heq, if_neg hqp, if_pos heq]
      · rw [if_neg heq, if_neg heq, ih]

theorem eraseFs_of_lookup_none {fs : Fs} {p : Path}
    (h : lookupFs fs p = none) : eraseFs fs p = fs := by
  induction fs with
  | nil => rfl
  | cons e rest ih =>
    rw [lookupFs_cons] at h
    by_cases hep : e.1 = p
    · rw [if_pos hep] at h
      exact absurd h (Option.some_ne_none _)
    · rw [if_neg hep] at h
      simp [eraseFs, hep, ih h]

theorem lookupFs_writeObj_self (fs : Fs) (p : Path) (o : FsObj) :
    lookupFs (writeObj fs p o) p = some o := by
  simp [writeObj, lookupFs_append, lookupFs_eraseFs, lookupFs_cons]

theorem lookupFs_writeObj_ne {q p : Path} (h : q ≠ p) (fs : Fs) (o : FsObj) :
    lookupFs (writeObj fs p o) q = lookupFs fs q := by
  simp [writeObj, lookupFs_append, lookupFs_eraseFs, lookupFs_cons, h,
    Ne.symm h, lookupFs_nil, Option.or_none]

theorem unpackAll_lookup_ne {entries : List TarEntry} {dest q : Path}
    (h : ∀ e ∈ entries, dest ++ e.1 ≠ q) (fs : Fs) :
    lookupFs (unpackAll fs dest entries) q = lookupFs fs q := by
  induction entries generalizing fs with
  | nil => rfl
  | cons e rest ih =>
    have he : dest ++ e.1 ≠ q := h e (List.mem_cons_self e rest)
    have hrest : ∀ x ∈ rest, dest ++ x.1 ≠ q := fun x hx =>
      h x (List.mem_cons_of_mem e hx)
    simp only [unpackAll, List.foldl_cons]
    rw [show (List.foldl (fun acc e => writeObj acc (dest ++ e.1) e.2)
      (writeObj fs (dest ++ e.1) e.2) rest) =
      unpackAll (writeObj fs (dest ++ e.1) e.2) dest rest from rfl]
    rw [ih hrest, lookupFs_writeObj_ne (Ne.symm he)]

theorem mkdirp_lookup_long {fs : Fs} {D q : Path} (h : D.length < q.length) :
    lookupFs (mkdirp fs D) q = lookupFs fs q := by
  rw [mkdirp, lookupFs_append]
  have : lookupFs ((List.range (D.length + 1)).filterMap fun i =>
      if lookupFs fs (D.take i) = none then some (D.take i, FsObj.dir)
      else none) q = none := by
    rw [lookupFs_eq_none_iff]
    intro e he
    rcases List.mem_filterMap.mp he with ⟨i, _, hfe⟩
    by_cases hc : lookupFs fs (D.take i) = none
    · rw [if_pos hc] at hfe
      cases hfe
      intro hq
      have hlen := congrArg List.length hq
      simp only [List.length_take] at hlen
      omega
    · rw [if_neg hc] at hfe
      exact absurd hfe (Option.noConfusion)
  rw [this, Option.or_none]

/-! Lemmas about the transport layer. -/

theorem download_calls {reg : Registry} {p a v : String} {st : DLState}
    {pkg : String} (hv : v ≠ "")
    (hp : getPlatformPackageName p a = some pkg) :
    (download reg p a v st).1.calls = st.calls + 1 := by
  simp only [download, if_neg hv, hp]
  split
  · rfl
  · split
    · rfl
    · split <;> rfl

theorem extract_calls {reg : Registry} {p a v : String} {fa : Option Nat}
    {cf : Path → Bool} {D : Path} {fs : Fs} {st : DLState} {pkg : String}
    (hv : v ≠ "") (hp : getPlatformPackageName p a = some pkg)
    (hm : lookupFs fs (markerPath D) = none) :
    (extract reg p a fa cf (some D) v fs st).2.1.calls = st.calls + 1 := by
  simp only [extract, if_neg hv, Option.getD_some, hm, Option.isSome_none,
    Bool.false_eq_true, if_false]
  have hc := @download_calls reg p a v st pkg hv hp
  rcases hdl : download reg p a v st with ⟨st1, out⟩
  rw [hdl] at hc
  rcases out with e | entries
  · exact hc
  · rcases fa with _ | k
    · exact hc
    · exact hc

theorem rmTmpFile_append {l : List (String × Option (List TarEntry))}
    {n : String} (h : ∀ e ∈ l, e.1 ≠ n) (c : Option (List TarEntry)) :
    rmTmpFile (l ++ [(n, c)]) n = l := by
  induction l with
  | nil => simp [rmTmpFile]
  | cons e rest ih =>
    have he : e.1 ≠ n := h e (List.mem_cons_self e rest)
    simp only [List.cons_append, rmTmpFile, if_neg he]
    exact congrArg (e :: ·) (ih fun x hx => h x (List.mem_cons_of_mem e hx))

theorem extract_unfold_nomarker {reg : Registry} {p a v : String}
    {fa : Option Nat} {cf : Path → Bool} {D : Path} {fs : Fs} {st : DLState}
    (hv : v ≠ "") (hm : lookupFs fs (markerPath D) = none) :
    extract reg p a fa cf (some D) v fs st =
      match download reg p a v st with
      | (st1, Except.error e) => (fs, st1, Except.error e)
      | (st1, Except.ok entries) =>
        match fa with
        | some k =>
          (unpackAll (mkdirp fs D) D (entries.take k), st1,
            Except.error Err.corruptArchive)
        | none =>
          (fixPermissions (bigFuel (unpackAll (mkdirp fs D) D entries)) cf
              (unpackAll (mkdirp fs D) D entries) (pythonDirOf D ++ ["bin"]),
            st1, Except.ok (pythonDirOf D)) := by
  simp only [extract, if_neg hv, Option.getD_some, hm, Option.isSome_none,
    Bool.false_eq_true, if_false]

theorem download_clean_success {reg : Registry} {p a v : String}
    {st : DLState} {pkg : String} {pr : PackResult}
    (hv : v ≠ "") (hp : getPlatformPackageName p a = some pkg)
    (hr : reg pkg v = some pr) (hm : tgzMatch pr.fname = true)
    (hclean : ∀ e ∈ st.tmp, tgzMatch e.1 = false) :
    (∀ entries, pr.content = some entries →
      download reg p a v st = (⟨st.tmp, st.calls + 1⟩, Except.ok entries)) ∧
    (pr.content = none →
      download reg p a v st =
        (⟨st.tmp ++ [(pr.fname, none)], st.calls + 1⟩,
          Except.error Err.corruptArchive)) := by
  have hnotin : ∀ e ∈ st.tmp, e.1 ≠ pr.fname := by
    intro e he hc
    have hfalse := hclean e he
    rw [hc, hm] at hfalse
    cases hfalse
  have hw : writeTmpFile st.tmp pr.fname pr.content =
      st.tmp ++ [(pr.fname, pr.content)] := by
    have hfind : st.tmp.find? (fun e => e.1 = pr.fname) = none := by
      rw [List.find?_eq_none]
      intro x hx
      simpa using hnotin x hx
    simp only [writeTmpFile, hfind, Option.isSome_none, Bool.false_eq_true,
      if_false]
  have hfind2 : (st.tmp ++ [(pr.fname, pr.content)]).find?
      (fun e => tgzMatch e.1) = some (pr.fname, pr.content) := by
    rw [List.find?_append]
    have h1 : st.tmp.find? (fun e => tgzMatch e.1) = none := by
      rw [List.find?_eq_none]
      intro x hx
      simp [hclean x hx]
    rw [h1, Option.none_or]
    simp [List.find?, hm]
  constructor
  · intro entries hce
    rw [hce] at hw hfind2
    simp only [download, if_neg hv, hp, hr, hce, hw, hfind2]
    rw [rmTmpFile_append hnotin]
  · intro hce
    rw [hce] at hw hfind2
    simp only [download, if_neg hv, hp, hr, hce, hw, hfind2]

/-! Lemmas about paths and the directory walk. -/

theorem ne_append_singleton (P : Path) (x : String) : P ≠ P ++ [x] := by
  intro h
  have := congrArg List.length h
  simp at this

theorem append_singleton_ne {x y : String} (P : Path) (h : x ≠ y) :
    P ++ [x] ≠ P ++ [y] := by
  intro hc
  have : [x] = [y] := List.append_cancel_left hc
  exact h (List.singleton_injective this)

theorem childName_self (p : Path) : childName p p = none := by
  unfold childName
  rw [if_neg]
  rintro ⟨h, _⟩
  omega

theorem childName_concat (p : Path) (n : String) :
    childName p (p ++ [n]) = some n := by
  unfold childName
  rw [if_pos]
  · exact List.getLast?_concat p
  · exact ⟨by simp, List.take_left p [n]⟩

theorem ne_of_length_ne {p q : Path} (h : p.length ≠ q.length) : p ≠ q :=
  fun hc => h (by rw [hc])

theorem childName_none_len {p q : Path} (h : q.length ≠ p.length + 1) :
    childName p q = none := by
  unfold childName
  rw [if_neg]
  rintro ⟨h1, _⟩
  exact h h1

theorem mkdirp_key_len {D : Path} : ∀ e ∈ mkdirp [] D,
    e.1.length ≤ D.length := by
  intro e he
  rcases (by simpa [mkdirp] using he :
      ∃ i, i < D.length + 1 ∧ lookupFs [] (D.take i) = none ∧
        (D.take i, FsObj.dir) = e) with ⟨i, _, _, hfe⟩
  rw [← hfe]
  simp [List.length_take]

theorem unpackAll_fresh : ∀ (es : List TarEntry) (fs : Fs) (D : Path),
    (∀ e ∈ es, lookupFs fs (D ++ e.1) = none) →
    (es.map fun e => D ++ e.1).Nodup →
    unpackAll fs D es = fs ++ es.map fun e => (D ++ e.1, e.2) := by
  intro es
  induction es with
  | nil => intro fs D _ _; simp [unpackAll]
  | cons e rest ih =>
    intro fs D hfresh hnodup
    have hw : writeObj fs (D ++ e.1) e.2 = fs ++ [(D ++ e.1, e.2)] := by
      rw [writeObj, eraseFs_of_lookup_none (hfresh e (List.mem_cons_self e rest))]
    have hstep : unpackAll fs D (e :: rest) =
        unpackAll (fs ++ [(D ++ e.1, e.2)]) D rest := by
      simp only [unpackAll, List.foldl_cons, hw]
    rw [hstep, ih]
    · simp
    · intro x hx
      rw [lookupFs_append, hfresh x (List.mem_cons_of_mem e hx)]
      have hne : D ++ e.1 ≠ D ++ x.1 := by
        rw [List.map_cons, List.nodup_cons] at hnodup
        intro hc
        exact hnodup.1 (hc ▸ List.mem_map_of_mem (fun y => D ++ y.1) hx)
      simp [lookupFs_cons, hne, lookupFs_nil]
    · rw [List.map_cons, List.nodup_cons] at hnodup
      exact hnodup.2

theorem setMode_append (l1 l2 : Fs) (p : Path) (m : Nat) :
    setMode (l1 ++ l2) p m = setMode l1 p m ++ setMode l2 p m := by
  simp [setMode]

theorem setMode_of_not_key {l : Fs} {p : Path}
    (h : ∀ x ∈ l, x.1 ≠ p) (m : Nat) : setMode l p m = l := by
  rw [setMode]
  conv_rhs => rw [show l = l.map id from (List.map_id l).symm]
  apply List.map_congr_left
  intro x hx
  rw [if_neg (h x hx)]
  rfl

theorem lookupFs_files (binP : Path) (g : String × List Nat × Nat → FsObj) :
    ∀ (L : List (String × List Nat × Nat)) (nm : String) (c : List Nat)
      (m : Nat), (L.map (·.1)).Nodup → (nm, c, m) ∈ L →
      lookupFs (L.map fun e => (binP ++ [e.1], g e)) (binP ++ [nm]) =
        some (g (nm, c, m)) := by
  intro L
  induction L with
  | nil => intro nm c m _ hmem; cases hmem
  | cons x rest ih =>
    intro nm c m hnodup hmem
    rcases List.mem_cons.mp hmem with rfl | hmem
    · simp [lookupFs_cons]
    · have hx : x.1 ≠ nm := by
        rw [List.map_cons, List.nodup_cons] at hnodup
        intro hc
        exact hnodup.1 (hc ▸ List.mem_map_of_mem (·.1) hmem)
      have hne : binP ++ [x.1] ≠ binP ++ [nm] := append_singleton_ne binP hx
      rw [List.map_cons, lookupFs_cons, if_neg hne]
      exact ih nm c m (by
        rw [List.map_cons, List.nodup_cons] at hnodup
        exact hnodup.2) hmem

theorem setMode_cons (e : Path × FsObj) (l : Fs) (p : Path) (m : Nat) :
    setMode (e :: l) p m =
      (if e.1 = p then
        match e.2 with
        | FsObj.file c _ => (p, FsObj.file c m)
        | o => (p, o)
       else e) :: setMode l p m := by
  simp only [setMode, List.map_cons]

theorem fixGo_cons (fuel : Nat) (cf : Path → Bool) (fs : Fs) (dirP : Path)
    (n : String) (ns : List String) :
    fixGo (fuel + 1) cf fs dirP (n :: ns) =
      fixGo fuel cf
        (match lookupFs fs (dirP ++ [n]) with
         | some FsObj.dir =>
           fixGo fuel cf fs (dirP ++ [n]) (readdirNames fs (dirP ++ [n]))
         | some (FsObj.file _ _) =>
           if cf (dirP ++ [n]) then fs else setMode fs (dirP ++ [n]) 0o755
         | _ => fs) dirP ns := rfl

theorem fixGo_flat : ∀ (L : List (String × List Nat × Nat)) (fuel : Nat)
    (cf : Path → Bool) (pre : Fs) (binP : Path),
    L.length < fuel →
    (∀ nm ∈ L.map (·.1), lookupFs pre (binP ++ [nm]) = none) →
    (L.map (·.1)).Nodup →
    fixGo fuel cf
      (pre ++ L.map fun e => (binP ++ [e.1], FsObj.file e.2.1 e.2.2))
      binP (L.map (·.1)) =
    pre ++ L.map fun e => (binP ++ [e.1],
      FsObj.file e.2.1 (if cf (binP ++ [e.1]) then e.2.2 else 0o755)) := by
  intro L
  induction L with
  | nil =>
    intro fuel cf pre binP hlt _ _
    rcases fuel with _ | f
    · omega
    · simp [fixGo]
  | cons x rest ih =>
    intro fuel cf pre binP hlt hfresh hnodup
    rcases fuel with _ | f
    · omega
    have hx_fresh : lookupFs pre (binP ++ [x.1]) = none :=
      hfresh x.1 (by simp)
    have hx_notin : x.1 ∉ rest.map (·.1) := by
      rw [List.map_cons, List.nodup_cons] at hnodup
      exact hnodup.1
    have hnodup2 : (rest.map (·.1)).Nodup := by
      rw [List.map_cons, List.nodup_cons] at hnodup
      exact hnodup.2
    have hpre_ne : ∀ y ∈ pre, y.1 ≠ binP ++ [x.1] :=
      lookupFs_eq_none_iff.mp hx_fresh
    simp only [List.map_cons]
    rw [fixGo_cons]
    have hlook : lookupFs
        (pre ++ (binP ++ [x.1], FsObj.file x.2.1 x.2.2) ::
          rest.map fun e => (binP ++ [e.1], FsObj.file e.2.1 e.2.2))
        (binP ++ [x.1]) = some (FsObj.file x.2.1 x.2.2) := by
      rw [lookupFs_append, hx_fresh, Option.none_or, lookupFs_cons,
        if_pos rfl]
    simp only [hlook]
    have hstep : (if cf (binP ++ [x.1]) then
          pre ++ (binP ++ [x.1], FsObj.file x.2.1 x.2.2) ::
            rest.map fun e => (binP ++ [e.1], FsObj.file e.2.1 e.2.2)
        else setMode
          (pre ++ (binP ++ [x.1], FsObj.file x.2.1 x.2.2) ::
            rest.map fun e => (binP ++ [e.1], FsObj.file e.2.1 e.2.2))
          (binP ++ [x.1]) 0o755) =
        (pre ++ [(binP ++ [x.1], FsObj.file x.2.1
            (if cf (binP ++ [x.1]) then x.2.2 else 0o755))]) ++
          rest.map fun e => (binP ++ [e.1], FsObj.file e.2.1 e.2.2) := by
      have htail : setMode
          (rest.map fun e => (binP ++ [e.1], FsObj.file e.2.1 e.2.2))
          (binP ++ [x.1]) 0o755 =
          rest.map fun e => (binP ++ [e.1], FsObj.file e.2.1 e.2.2) := by
        apply setMode_of_not_key
        intro y hy
        rcases List.mem_map.mp hy with ⟨z, hz, rfl⟩
        exact append_singleton_ne binP
          fun hc => hx_notin (hc ▸ List.mem_map_of_mem (·.1) hz)
      cases hcf : cf (binP ++ [x.1])
      · rw [if_neg (by simp [hcf])]
        rw [show (pre ++ (binP ++ [x.1], FsObj.file x.2.1 x.2.2) ::
            rest.map fun e => (binP ++ [e.1], FsObj.file e.2.1 e.2.2)) =
            pre ++ ((binP ++ [x.1], FsObj.file x.2.1 x.2.2) ::
            rest.map fun e => (binP ++ [e.1], FsObj.file e.2.1 e.2.2))
          from rfl, setMode_append, setMode_of_not_key hpre_ne,
          setMode_cons, if_pos rfl, htail]
        simp [hcf]
      · rw [if_pos (by simp [hcf])]
        simp [hcf]
    rw [hstep, ih f cf _ binP (by simpa using Nat.lt_of_succ_lt_succ hlt)
      ?hfr hnodup2]
    · simp [List.append_assoc]
    case hfr =>
      intro nm hnm
      rw [lookupFs_append, hfresh nm (by simp [hnm]), Option.none_or,
        lookupFs_cons, if_neg, lookupFs_nil]
      exact append_singleton_ne binP
        (fun hc => hx_notin (hc ▸ hnm))

theorem lookup_mkdirp_nil_long {D q : Path} (h : D.length < q.length) :
    lookupFs (mkdirp [] D) q = none := by
  rw [mkdirp_lookup_long h]
  rfl

theorem readdir_files (binP : Path) :
    ∀ L : List (String × List Nat × Nat),
      readdirNames (L.map fun e => (binP ++ [e.1], FsObj.file e.2.1 e.2.2))
        binP = L.map (·.1) := by
  intro L
  induction L with
  | nil => rfl
  | cons x rest ih =>
    simp only [readdirNames] at ih ⊢
    simp only [List.map_cons, List.filterMap_cons, childName_concat]
    rw [ih]

theorem archOf_keys_fresh (L : List (String × List Nat × Nat)) (D : Path) :
    ∀ e ∈ archOf L, lookupFs (mkdirp [] D) (D ++ e.1) = none := by
  intro e he
  have hlen : 1 ≤ e.1.length := by
    simp only [archOf, List.mem_append, List.mem_cons, List.mem_map,
      List.not_mem_nil, or_false] at he
    rcases he with (rfl | rfl | rfl) | ⟨z, _, rfl⟩ <;> simp
  exact lookup_mkdirp_nil_long (by simp; omega)

theorem archOf_keys_nodup (L : List (String × List Nat × Nat)) (D : Path)
    (hnodup : (L.map (·.1)).Nodup) :
    ((archOf L).map fun e => D ++ e.1).Nodup := by
  have hmm : ((archOf L).map fun e => D ++ e.1) =
      ((archOf L).map (·.1)).map fun q => D ++ q := by
    rw [List.map_map]
    rfl
  rw [hmm]
  apply List.Nodup.map
  · intro q q' h
    exact List.append_cancel_left h
  · simp only [archOf, List.map_append, List.map_cons, List.map_nil,
      List.map_map]
    refine List.nodup_append.mpr ⟨by decide, ?_, ?_⟩
    · have hmm2 : (L.map fun e => (["package", "python", "bin", e.1] : Path))
          = (L.map (·.1)).map
            fun nm => (["package", "python", "bin", nm] : Path) := by
        rw [List.map_map]
        rfl
      rw [show List.map ((fun e => e.1) ∘ fun e =>
          ((["package", "python", "bin", e.1] : Path),
            FsObj.file e.2.1 e.2.2)) L =
          L.map fun e => (["package", "python", "bin", e.1] : Path)
        from rfl, hmm2]
      apply List.Nodup.map _ hnodup
      intro nm nm' h
      simpa using h
    · intro q hq hq2
      rcases List.mem_map.mp hq2 with ⟨z, _, rfl⟩
      simp at hq

theorem rsGo_zero (fs : Fs) (dirP : Path) (ns : List String) :
    rsGo 0 fs dirP ns = fs := rfl

theorem rsGo_nil (fuel : Nat) (fs : Fs) (dirP : Path) :
    rsGo (fuel + 1) fs dirP [] = fs := rfl

theorem rsGo_cons (fuel : Nat) (fs : Fs) (dirP : Path) (n : String)
    (ns : List String) :
    rsGo (fuel + 1) fs dirP (n :: ns) =
      rsGo fuel
        (match lookupFs fs (dirP ++ [n]) with
         | some (FsObj.symlink t) => replaceLink fs dirP (dirP ++ [n]) t
         | some FsObj.dir =>
           rsGo fuel fs (dirP ++ [n]) (readdirNames fs (dirP ++ [n]))
         | _ => fs) dirP ns := rfl

/-! Claim theorems. -/

/-- C3: for every platform pair absent from the supported table,
resolution fails with the unsupported-platform error before any transport
attempt (the state, including the transport-call counter, is untouched);
for the supported pairs `getPlatformPackageName` returns the canonical
downstream package name. -/
theorem platform_gate :
    (∀ (reg : Registry) (p a v : String) (st : DLState), v ≠ "" →
      getPlatformPackageName p a = none →
      download reg p a v st = (st, Except.error Err.unsupportedPlatform)) ∧
    getPlatformPackageName "linux" "x64" =
      some "@xspect-build/python-linux-x64" ∧
    getPlatformPackageName "linux" "arm64" =
      some "@xspect-build/python-linux-arm64" := by
  refine ⟨?_, rfl, rfl⟩
  intro reg p a v st hv hn
  unfold download
  rw [if_neg hv, hn]

/-- Witness for `platform_gate` at a concrete unsupported pair. -/
theorem platform_gate_witness :
    download demoReg "windows" "x64" "1.0.0" ⟨[], 0⟩ =
      (⟨[], 0⟩, Except.error Err.unsupportedPlatform) :=
  platform_gate.1 demoReg "windows" "x64" "1.0.0" ⟨[], 0⟩ (by decide)
    (by decide)

/-- C8 counterexample: two download invocations for distinct versions use
the very same temporary download location (`os.tmpdir()`), so the claimed
per-invocation unique temp path does not exist. -/
theorem downloadCwd_collision :
    downloadCwd "1.0.0" = downloadCwd "2.0.0" ∧
    ("1.0.0" : String) ≠ "2.0.0" :=
  ⟨rfl, by decide⟩

/-- C8 amended: every download invocation packs into the shared OS
temporary directory — the download location is the same constant for all
versions, not a fresh per-call path. -/
theorem downloadCwd_shared (v w : String) : downloadCwd v = downloadCwd w :=
  rfl

/-- C9: when the shared temporary directory already holds a stale matching
tarball, `download` returns the archive of the stale file — not the one
`npm pack` just produced — and removes the stale file while leaving the
fresh one behind. -/
theorem download_picks_leftover_tarball :
    (download regNewVersion "linux" "x64" "2.0.0" leftoverState).2 =
      Except.ok leftoverArch ∧
    leftoverArch ≠ demoArchive ∧
    (download regNewVersion "linux" "x64" "2.0.0" leftoverState).1.tmp =
      [("xspect-build-python-linux-x64-2.0.0.tgz", some demoArchive)] := by
  decide

/-- C5 counterexample: when the gunzip step fails, `download` errors out
with the tarball still sitting in the temporary directory — there is no
guaranteed cleanup on this failure path. -/
theorem download_corrupt_leaves_tarball :
    (download corruptReg "linux" "x64" "9.9.9" ⟨[], 0⟩).2 =
      Except.error Err.corruptArchive ∧
    (download corruptReg "linux" "x64" "9.9.9" ⟨[], 0⟩).1.tmp =
      [("xspect-build-python-linux-x64-9.9.9.tgz", none)] := by
  decide

/-- C2: atomicity on failure — with no completion marker present
initially, every failing resolution attempt leaves the destination without
a completion marker: a fetch failure leaves the filesystem untouched, and
an interrupted unpack (failure after any number `k` of written entries of
an npm archive, whose entry paths all start with `package/`) surfaces the
error with the marker still absent; consequently a subsequent call
re-triggers the full fetch path (one more transport call) instead of
returning a partial path. -/
theorem extract_failure_leaves_no_marker (reg : Registry)
    (p a v : String) (cf : Path → Bool) (D : Path) (fs : Fs) (st : DLState)
    (k : Nat) (pkg : String) (hv : v ≠ "")
    (hp : getPlatformPackageName p a = some pkg)
    (hm : lookupFs fs (markerPath D) = none) :
    (∀ er, (download reg p a v st).2 = Except.error er →
      (extract reg p a (some k) cf (some D) v fs st).1 = fs ∧
      (extract reg p a (some k) cf (some D) v fs st).2.2 =
        Except.error er) ∧
    (∀ st1 entries, download reg p a v st = (st1, Except.ok entries) →
      (∀ e ∈ entries, e.1.head? = some "package") →
      (extract reg p a (some k) cf (some D) v fs st).2.2 =
        Except.error Err.corruptArchive ∧
      lookupFs (extract reg p a (some k) cf (some D) v fs st).1
        (markerPath D) = none) ∧
    (∀ fs', lookupFs fs' (markerPath D) = none →
      (extract reg p a none cf (some D) v fs' st).2.1.calls =
        st.calls + 1) := by
  refine ⟨?_, ?_, ?_⟩
  · intro er he
    rw [extract_unfold_nomarker hv hm]
    rcases hdl : download reg p a v st with ⟨st1, out⟩
    rw [hdl] at he
    dsimp only at he
    rw [he]
    exact ⟨rfl, rfl⟩
  · intro st1 entries hdl hent
    rw [extract_unfold_nomarker hv hm, hdl]
    refine ⟨rfl, ?_⟩
    dsimp only
    have hne : ∀ e ∈ entries.take k, D ++ e.1 ≠ markerPath D := by
      intro e he hc
      have hmem : e ∈ entries := List.take_subset k entries he
      have hhead := hent e hmem
      have he1 : e.1 = ["package.json"] :=
        List.append_cancel_left (hc.trans rfl)
      rw [he1] at hhead
      have : "package.json" = "package" := Option.some.inj hhead
      exact absurd this (by decide)
    rw [unpackAll_lookup_ne hne, mkdirp_lookup_long (by simp [markerPath]),
      hm]
  · intro fs' hm'
    exact extract_calls hv hp hm'

/-- Witness for `extract_failure_leaves_no_marker`: a concrete unpack
interrupted after one entry leaves no marker and surfaces the error. -/
theorem extract_failure_leaves_no_marker_witness :
    (extract demoReg "linux" "x64" (some 1) (fun _ => false) (some ["d"])
      "python3.9.13" [] ⟨[], 0⟩).2.2 = Except.error Err.corruptArchive ∧
    lookupFs (extract demoReg "linux" "x64" (some 1) (fun _ => false)
      (some ["d"]) "python3.9.13" [] ⟨[], 0⟩).1 (markerPath ["d"]) = none :=
  (extract_failure_leaves_no_marker demoReg "linux" "x64" "python3.9.13"
      (fun _ => false) ["d"] [] ⟨[], 0⟩ 1 "@xspect-build/python-linux-x64"
      (by decide) (by decide) (by decide)).2.1 ⟨[], 1⟩ demoArchive
    (by decide) (by decide)

/-- C5 amended: the transient tarball is removed only on the success path,
after its bytes are read into memory — a clean fetch restores the shared
temporary directory exactly; but when the gunzip step fails after `npm
pack` produced the file, the error is surfaced with the tarball still in
the temporary directory. -/
theorem download_cleanup_amended (reg : Registry) (p a v : String)
    (st : DLState) (pkg : String) (pr : PackResult) (hv : v ≠ "")
    (hp : getPlatformPackageName p a = some pkg)
    (hr : reg pkg v = some pr) (hm : tgzMatch pr.fname = true)
    (hclean : ∀ e ∈ st.tmp, tgzMatch e.1 = false) :
    (∀ entries, pr.content = some entries →
      download reg p a v st = (⟨st.tmp, st.calls + 1⟩, Except.ok entries)) ∧
    (pr.content = none →
      download reg p a v st =
        (⟨st.tmp ++ [(pr.fname, none)], st.calls + 1⟩,
          Except.error Err.corruptArchive)) :=
  download_clean_success hv hp hr hm hclean

/-- Witness for `download_cleanup_amended`: a concrete clean fetch makes
one transport call, returns the archive and leaves the temporary directory
as it found it. -/
theorem download_cleanup_amended_witness :
    download demoReg "linux" "x64" "python3.9.13" ⟨[], 0⟩ =
      (⟨[], 1⟩, Except.ok demoArchive) :=
  (download_cleanup_amended demoReg "linux" "x64" "python3.9.13" ⟨[], 0⟩
      "@xspect-build/python-linux-x64"
      ⟨"xspect-build-python-linux-x64-3.9.13-install-only.1.tgz",
        some demoArchive⟩
      (by decide) (by decide) rfl (by decide) (by decide)).1 demoArchive
    rfl

/-- C1: the code at its own failing input — two successive `extract` calls
for the same version: the first succeeds but writes no completion marker at
the destination root (the tarball unpacks under `package/`, while the
marker is checked at `destPath/package.json`), so the second call performs
a second network transport call instead of returning from cache. -/
theorem extract_second_call_redownloads :
    (let r1 := extract demoReg "linux" "x64" none (fun _ => false)
        (some ["d"]) "python3.9.13" [] ⟨[], 0⟩
     let r2 := extract demoReg "linux" "x64" none (fun _ => false)
        (some ["d"]) "python3.9.13" r1.1 r1.2.1
     r1.2.1.calls = 1 ∧ r1.2.2 = Except.ok (pythonDirOf ["d"]) ∧
     lookupFs r1.1 (markerPath ["d"]) = none ∧
     r2.2.1.calls = 2 ∧ r2.2.2 = Except.ok (pythonDirOf ["d"])) := by
  decide

/-- C7 counterexample: on a host where the first probed candidate exists
as a directory and the second is a regular file, `findBinaryPath` returns
the directory path — not the first path that exists and is a regular file,
which the spec-faithful `findBinaryPathSpec` returns. -/
theorem findBinaryPath_returns_directory :
    findBinaryPath hostDirCand "/app/lib" =
      some (candidateDirect "/app/lib" demoPkg) ∧
    hostDirCand.fsFiles.contains (candidateDirect "/app/lib" demoPkg) =
      false ∧
    findBinaryPathSpec hostDirCand "/app/lib" =
      some (candidateHoisted "/app/lib" demoPkg) ∧
    candidateDirect "/app/lib" demoPkg ≠
      candidateHoisted "/app/lib" demoPkg := by
  decide

/-- C7 amended: `getPatchelfPath` probes the ordered candidate list and
returns the first path that merely exists (no regular-file check); on
every host where no candidate exists it fails with the typed not-found
error rather than crashing. -/
theorem getPatchelfPath_amended (h : Host) (dn : String) :
    (findBinaryPath h dn = none →
      getPatchelfPath h dn = Except.error Err.notFound) ∧
    (∀ p, findBinaryPath h dn = some p →
      getPatchelfPath h dn = Except.ok p ∧ existsSyncB h p = true) := by
  constructor
  · intro hn
    unfold getPatchelfPath
    rw [hn]
  · intro p hp
    refine ⟨by unfold getPatchelfPath; rw [hp], ?_⟩
    unfold findBinaryPath at hp
    rcases hl : lookupStr patchelfPlatformMap (h.platform ++ "-" ++ h.arch)
      with _ | pkg
    · simp only [hl] at hp
      exact Option.noConfusion hp
    · simp only [hl] at hp
      rcases hf : (possiblePaths dn pkg).find? (fun q => existsSyncB h q)
        with _ | q
      · simp only [hf] at hp
        rcases hr : h.resolvedDir with _ | d
        · simp only [hr] at hp
          exact Option.noConfusion hp
        · simp only [hr] at hp
          by_cases hx : existsSyncB h (pjoin [d, "bin", "patchelf"]) = true
          · rw [if_pos hx] at hp
            cases hp
            exact hx
          · rw [if_neg hx] at hp
            cases hp
      · simp only [hf] at hp
        cases hp
        exact List.find?_some hf

/-- Witness for `getPatchelfPath_amended`: on a host with nothing
installed the resolver returns the typed not-found error. -/
theorem getPatchelfPath_amended_witness :
    getPatchelfPath hostEmpty "/d" = Except.error Err.notFound :=
  (getPatchelfPath_amended hostEmpty "/d").1 (by decide)

/-- C6 counterexample: a successful materialization of a payload carrying
a `libexec` directory leaves a regular file under `libexec` with its
original non-executable mode `0o600` (only `bin` is chmodded), refuting
the claim that every regular file under both designated binary
directories ends with mode `0o755`. -/
theorem extract_libexec_not_fixed :
    (let r := extract regLibexec "linux" "x64" none (fun _ => false)
        (some ["d"]) "1.2.3" [] ⟨[], 0⟩
     r.2.2 = Except.ok (pythonDirOf ["d"]) ∧
     lookupFs r.1 ["d", "package", "python", "libexec", "ld"] =
       some (FsObj.file [3] 0o600) ∧
     lookupFs r.1 ["d", "package", "python", "bin", "python3"] =
       some (FsObj.file [2] 0o755) ∧
     (0o600 : Nat) ≠ 0o755) := by
  decide

/-- C6 amended: after every successful materialization of an npm payload
with a flat `bin` directory, every regular file under `bin` on which
chmod succeeds has mode `0o755`, files on which chmod fails keep their
mode, and chmod failures never abort the extraction (the call still
succeeds for every failure set `cf`); the `libexec` directory is not
touched by this materializer. -/
theorem extract_fixes_bin_only (reg : Registry) (p a v pkg fname : String)
    (L : List (String × List Nat × Nat)) (cf : Path → Bool) (st : DLState)
    (D : Path) (hv : v ≠ "") (hp : getPlatformPackageName p a = some pkg)
    (hr : reg pkg v = some ⟨fname, some (archOf L)⟩)
    (hm : tgzMatch fname = true)
    (hclean : ∀ e ∈ st.tmp, tgzMatch e.1 = false)
    (hnodup : (L.map (·.1)).Nodup) :
    (extract reg p a none cf (some D) v [] st).2.2 =
      Except.ok (pythonDirOf D) ∧
    ∀ nm c mo, (nm, c, mo) ∈ L →
      lookupFs (extract reg p a none cf (some D) v [] st).1
        (pythonDirOf D ++ ["bin", nm]) =
        some (FsObj.file c
          (if cf (pythonDirOf D ++ ["bin", nm]) then mo else 0o755)) := by
  have hm0 : lookupFs ([] : Fs) (markerPath D) = none := rfl
  have hdl := (download_clean_success hv hp hr hm hclean).1 (archOf L) rfl
  rw [extract_unfold_nomarker hv hm0, hdl]
  refine ⟨rfl, ?_⟩
  intro nm c mo hmem
  have hb : pythonDirOf D ++ ["bin"] = D ++ ["package", "python", "bin"] := by
    simp [pythonDirOf]
  have hbnm : pythonDirOf D ++ ["bin", nm] =
      (D ++ ["package", "python", "bin"]) ++ [nm] := by
    simp [pythonDirOf]
  rw [hbnm, hb]
  dsimp only
  have hfresh := archOf_keys_fresh L D
  have hkeysnodup := archOf_keys_nodup L D hnodup
  have hshape := unpackAll_fresh (archOf L) (mkdirp [] D) D hfresh hkeysnodup
  have hfs2 : unpackAll (mkdirp [] D) D (archOf L) =
      (mkdirp [] D ++ [(D ++ ["package"], FsObj.dir),
        (D ++ ["package", "python"], FsObj.dir),
        (D ++ ["package", "python", "bin"], FsObj.dir)]) ++
        L.map fun e => ((D ++ ["package", "python", "bin"]) ++ [e.1],
          FsObj.file e.2.1 e.2.2) := by
    rw [hshape]
    simp [archOf, List.append_assoc]
  rw [hfs2]
  have hfreshPRE : ∀ x ∈ L.map (·.1),
      lookupFs (mkdirp [] D ++ [(D ++ ["package"], FsObj.dir),
        (D ++ ["package", "python"], FsObj.dir),
        (D ++ ["package", "python", "bin"], FsObj.dir)])
        ((D ++ ["package", "python", "bin"]) ++ [x]) = none := by
    intro x _
    rw [lookupFs_append, lookup_mkdirp_nil_long (by simp), Option.none_or,
      lookupFs_cons, if_neg (ne_of_length_ne (by simp)), lookupFs_cons,
      if_neg (ne_of_length_ne (by simp)), lookupFs_cons,
      if_neg (ne_append_singleton _ x), lookupFs_nil]
  have hlookbin : lookupFs
      ((mkdirp [] D ++ [(D ++ ["package"], FsObj.dir),
        (D ++ ["package", "python"], FsObj.dir),
        (D ++ ["package", "python", "bin"], FsObj.dir)]) ++
        L.map fun e => ((D ++ ["package", "python", "bin"]) ++ [e.1],
          FsObj.file e.2.1 e.2.2))
      (D ++ ["package", "python", "bin"]) = some FsObj.dir := by
    rw [lookupFs_append, lookupFs_append,
      lookup_mkdirp_nil_long (by simp), Option.none_or, lookupFs_cons,
      if_neg (ne_of_length_ne (by simp)), lookupFs_cons,
      if_neg (ne_of_length_ne (by simp)), lookupFs_cons, if_pos rfl]
    rfl
  rw [fixPermissions, if_neg (by rw [hlookbin]; simp)]
  have hreaddir : readdirNames
      ((mkdirp [] D ++ [(D ++ ["package"], FsObj.dir),
        (D ++ ["package", "python"], FsObj.dir),
        (D ++ ["package", "python", "bin"], FsObj.dir)]) ++
        L.map fun e => ((D ++ ["package", "python", "bin"]) ++ [e.1],
          FsObj.file e.2.1 e.2.2))
      (D ++ ["package", "python", "bin"]) = L.map (·.1) := by
    have hA : (mkdirp [] D ++ [(D ++ ["package"], FsObj.dir),
        (D ++ ["package", "python"], FsObj.dir),
        (D ++ ["package", "python", "bin"], FsObj.dir)]).filterMap
        (fun e => childName (D ++ ["package", "python", "bin"]) e.1) =
        [] := by
      rw [List.filterMap_eq_nil_iff]
      intro e he
      rcases List.mem_append.mp he with hmk | h3
      · have := mkdirp_key_len e hmk
        apply childName_none_len
        simp
        omega
      · simp only [List.mem_cons, List.not_mem_nil, or_false] at h3
        rcases h3 with rfl | rfl | rfl <;>
          (apply childName_none_len; simp)
    rw [readdirNames, List.filterMap_append, hA, List.nil_append]
    exact readdir_files (D ++ ["package", "python", "bin"]) L
  rw [hreaddir]
  have hfuel : L.length < bigFuel
      ((mkdirp [] D ++ [(D ++ ["package"], FsObj.dir),
        (D ++ ["package", "python"], FsObj.dir),
        (D ++ ["package", "python", "bin"], FsObj.dir)]) ++
        L.map fun e => ((D ++ ["package", "python", "bin"]) ++ [e.1],
          FsObj.file e.2.1 e.2.2)) := by
    set n := ((mkdirp [] D ++ [(D ++ ["package"], FsObj.dir),
        (D ++ ["package", "python"], FsObj.dir),
        (D ++ ["package", "python", "bin"], FsObj.dir)]) ++
        L.map fun e => ((D ++ ["package", "python", "bin"]) ++ [e.1],
          FsObj.file e.2.1 e.2.2)).length with hn
    have hlen : L.length ≤ n := by
      rw [hn]
      simp
      omega
    have h2 : n + 1 ≤ (n + 1) * (n + 1) :=
      Nat.le_mul_of_pos_left (n + 1) (by omega)
    rw [bigFuel, ← hn]
    omega
  rw [fixGo_flat L _ cf _ (D ++ ["package", "python", "bin"]) hfuel
    hfreshPRE hnodup]
  rw [lookupFs_append,
    hfreshPRE nm (List.mem_map_of_mem (·.1) hmem), Option.none_or]
  exact lookupFs_files (D ++ ["package", "python", "bin"])
    (fun e => FsObj.file e.2.1
      (if cf ((D ++ ["package", "python", "bin"]) ++ [e.1]) then e.2.2
       else 0o755)) L nm c mo hnodup hmem

/-- Witness for `extract_fixes_bin_only`: a concrete one-file `bin`
payload whose file ends with mode `0o755` and a successful extraction. -/
theorem extract_fixes_bin_only_witness :
    (extract regBin "linux" "x64" none (fun _ => false) (some ["d"])
      "1.0.0" [] ⟨[], 0⟩).2.2 = Except.ok (pythonDirOf ["d"]) ∧
    lookupFs (extract regBin "linux" "x64" none (fun _ => false)
        (some ["d"]) "1.0.0" [] ⟨[], 0⟩).1
      (pythonDirOf ["d"] ++ ["bin", "python3"]) =
      some (FsObj.file [2] 0o755) :=
  have h := extract_fixes_bin_only regBin "linux" "x64" "1.0.0"
    "@xspect-build/python-linux-x64"
    "xspect-build-python-linux-x64-1.0.0.tgz" demoBinL (fun _ => false)
    ⟨[], 0⟩ ["d"] (by decide) (by decide) rfl (by decide) (by decide)
    (by decide)
  ⟨h.1, h.2 "python3" [2] 0o644 (by decide)⟩

/-- C4: symlink materialization round-trip — in a directory holding a
regular file (arbitrary content and mode) and a symbolic link whose
target, resolved relative to the containing directory, is that file,
`replaceSymlinks` replaces the link by a regular file with byte-identical
content and the mode of the target, leaving the target itself in place. -/
theorem replaceSymlinks_file_roundtrip (fuel : Nat) (P : Path)
    (a b t : String) (c : List Nat) (m : Nat) (hab : a ≠ b)
    (hres : resolvePath P t = P ++ [a]) :
    lookupFs (replaceSymlinks (fuel + 3)
        [(P, FsObj.dir), (P ++ [a], FsObj.file c m),
         (P ++ [b], FsObj.symlink t)] P) (P ++ [b]) =
      some (FsObj.file c m) ∧
    lookupFs (replaceSymlinks (fuel + 3)
        [(P, FsObj.dir), (P ++ [a], FsObj.file c m),
         (P ++ [b], FsObj.symlink t)] P) (P ++ [a]) =
      some (FsObj.file c m) := by
  have hPa : P ≠ P ++ [a] := ne_append_singleton P a
  have hPb : P ≠ P ++ [b] := ne_append_singleton P b
  have hab2 : P ++ [a] ≠ P ++ [b] := append_singleton_ne P hab
  have hreaddir : readdirNames
      [(P, FsObj.dir), (P ++ [a], FsObj.file c m),
       (P ++ [b], FsObj.symlink t)] P = [a, b] := by
    simp [readdirNames, childName_self, childName_concat]
  have hlookA : lookupFs
      [(P, FsObj.dir), (P ++ [a], FsObj.file c m),
       (P ++ [b], FsObj.symlink t)] (P ++ [a]) = some (FsObj.file c m) := by
    simp [lookupFs_cons, hPa]
  have hlookB : lookupFs
      [(P, FsObj.dir), (P ++ [a], FsObj.file c m),
       (P ++ [b], FsObj.symlink t)] (P ++ [b]) =
      some (FsObj.symlink t) := by
    simp [lookupFs_cons, hPb, hab2]
  have herase : eraseFs
      [(P, FsObj.dir), (P ++ [a], FsObj.file c m),
       (P ++ [b], FsObj.symlink t)] (P ++ [b]) =
      [(P, FsObj.dir), (P ++ [a], FsObj.file c m)] := by
    simp [eraseFs, hPb, hab2]
  have hstat : statFollow [(P, FsObj.dir), (P ++ [a], FsObj.file c m)] 40
      (P ++ [a]) = some (FsObj.file c m) := by
    rw [show (40 : Nat) = 39 + 1 from rfl]
    simp [statFollow, lookupFs_cons, hPa]
  have hrl : replaceLink
      [(P, FsObj.dir), (P ++ [a], FsObj.file c m),
       (P ++ [b], FsObj.symlink t)] P (P ++ [b]) t =
      [(P, FsObj.dir), (P ++ [a], FsObj.file c m)] ++
        [(P ++ [b], FsObj.file c m)] := by
    unfold replaceLink
    rw [hres, herase]
    simp only [hstat]
  rw [replaceSymlinks, hreaddir,
    show fuel + 3 = (fuel + 2) + 1 from rfl, rsGo_cons]
  simp only [hlookA]
  rw [show fuel + 2 = (fuel + 1) + 1 from rfl, rsGo_cons]
  simp only [hlookB]
  rw [hrl, rsGo_nil]
  constructor
  · simp [lookupFs_append, lookupFs_cons, hPb, hab2]
  · simp [lookupFs_append, lookupFs_cons, hPa]

/-- Witness for `replaceSymlinks_file_roundtrip`: a bin directory holding
`python3.9` and a symlink `python3` pointing at it. -/
theorem replaceSymlinks_file_roundtrip_witness :
    lookupFs (replaceSymlinks 3
        [(["r"], FsObj.dir), (["r", "python3.9"], FsObj.file [7] 0o755),
         (["r", "python3"], FsObj.symlink "python3.9")] ["r"])
      ["r", "python3"] = some (FsObj.file [7] 0o755) ∧
    lookupFs (replaceSymlinks 3
        [(["r"], FsObj.dir), (["r", "python3.9"], FsObj.file [7] 0o755),
         (["r", "python3"], FsObj.symlink "python3.9")] ["r"])
      ["r", "python3.9"] = some (FsObj.file [7] 0o755) :=
  replaceSymlinks_file_roundtrip 0 ["r"] "python3.9" "python3" "python3.9"
    [7] 0o755 (by decide) (by decide)

/-- C10: `isPatchelfAvailable` is total — on every host state it returns
`ok` of a boolean (never a thrown error), and that boolean is `true`
exactly when a candidate binary path is found and passes the
executability check. -/
theorem isPatchelfAvailable_total (h : Host) (dn : String) :
    isPatchelfAvailable h dn =
      Except.ok ((findBinaryPath h dn).any fun p => accessXOk h p) := by
  unfold isPatchelfAvailable getPatchelfPath
  rcases hf : findBinaryPath h dn with _ | p
  · rfl
  · cases hx : accessXOk h p
    · simp [hx]
    · simp [hx]

end Xspect
